import Mathlib

/-!
# Verification of the proving pipeline of `src/clients/cli/src/prover/pipeline.rs`

This development embeds the fan-out/fan-in proving pipeline of
`ProvingPipeline` in Lean 4 and proves/refutes the specification claims
about it.

Embedding choices:

* External collaborators (`InputParser::parse_triple_input`,
  `ProvingEngine::prove_and_validate`, the keccak digests, `postcard`
  serialization, and the task-join layer of `tokio`) are not part of
  `src/`; they are modelled as fields of an explicit environment
  (`PipelineExt` for the collaborators the pipeline itself uses,
  `Externals` for the additional collaborators used only by the
  exploit code paths).
* The proof object is opaque to the pipeline, so `Proof` is modelled
  as `Nat`; a unit's raw input payload is modelled as `String`.
* The concurrent execution of `prove_fib_task` (lines 39-170) is
  modelled as a small-step machine: each spawned task moves through
  the phases `notStarted → waitingPermit → hasPermit → running →
  done`, mirroring the cancellation check before starting (line 78),
  the semaphore acquire (line 83), the cancellation re-check after the
  permit (line 86), input parsing (line 91), the proving/validation
  call (line 94) and hash generation (line 103).  A schedule (a list
  of scheduler choices) resolves the nondeterminism; theorems
  quantify over all schedules.
* `join_all` (line 111) and the synchronous result-collection loop
  (lines 114-165) are modelled by the `collect` step: it is enabled
  only once every task is done (the collector cannot observe anything
  before `join_all` returns), assembles the joined results in spawn
  (= input) order exactly as `join_all` does, and runs the pure
  collector `prove_fib_task_post`.
-/

/-- The pipeline treats a Stwo proof as an opaque serializable object
(`nexus_sdk::stwo::seq::Proof`); modelled as an opaque `Nat`. -/
abbrev Proof := Nat

/-- One raw unit-input payload (an element of `task.all_inputs()`),
opaque bytes to the pipeline; modelled as `String`. -/
abbrev InputData := String

/-- The parsed triple produced by `InputParser::parse_triple_input`
(a `(u32, u32, u32)` as used by `generate_fake_hash`). -/
abbrev TripleInput := Nat × Nat × Nat

/-- A `tokio` task-join failure (the `Err` of awaiting a `JoinHandle`). -/
inductive JoinErr
  | panicked
deriving DecidableEq, Repr

/-- `ProverError` (from `super::types`), with exactly the variants the
pipeline constructs or matches on: `MalformedTask`, `Stwo`,
`GuestProgram`, `JoinError`, `Subprocess`. -/
inductive ProverError
  | MalformedTask (msg : String)
  | Stwo (msg : String)
  | GuestProgram (msg : String)
  | JoinError (e : JoinErr)
  | Subprocess (msg : String)
deriving DecidableEq, Repr

/-- Decidable equality for `Except`, used to evaluate concrete machine
runs in the witnesses. -/
instance {ε α : Type} [DecidableEq ε] [DecidableEq α] : DecidableEq (Except ε α)
  | .ok x, .ok y =>
    match decEq x y with
    | isTrue h => isTrue (h ▸ rfl)
    | isFalse h => isFalse fun hc => h (by cases hc; rfl)
  | .ok _, .error _ => isFalse fun hc => by cases hc
  | .error _, .ok _ => isFalse fun hc => by cases hc
  | .error x, .error y =>
    match decEq x y with
    | isTrue h => isTrue (h ▸ rfl)
    | isFalse h => isFalse fun hc => h (by cases hc; rfl)

/-- The recoverable-failure test of the collector: mirrors the match arm
`ProverError::Stwo(_) | ProverError::GuestProgram(_)` at line 127 of
`pipeline.rs`; everything else falls into the fatal arm at line 135. -/
def ProverError.isRecoverable : ProverError → Bool
  | .Stwo _ => true
  | .GuestProgram _ => true
  | _ => false

/-- `TaskType` (from `crate::nexus_orchestrator`): the pipeline matches
on `AllProofHashes` and `ProofHash` (lines 181-182) and treats every
other variant uniformly (line 185); `ProofRequired` stands for the
other variants. -/
inductive TaskType
  | ProofRequired
  | ProofHash
  | AllProofHashes
deriving DecidableEq, Repr

/-- `crate::task::Task`, restricted to the fields the pipeline reads:
`program_id` (line 27), `task_id` (used by `generate_fake_hash`),
`task_type` (line 180), and the ordered unit-input sequence returned by
`all_inputs()` (line 45).  `Task` lives outside `src/`; its inputs
accessor is modelled from the spec below. -/
structure ProverTask where
  program_id : String
  task_id : String
  task_type : TaskType
  inputs : List InputData
deriving DecidableEq, Repr

/-- Modelled from the spec: `Task::all_inputs` (in `task.rs`, not under
`src/`) returns the job's ordered sequence of unit inputs ("carries a
job identifier, a job-kind tag ... and an ordered sequence of unit
inputs"). -/
def ProverTask.all_inputs (t : ProverTask) : List InputData := t.inputs

/-- The external collaborators invoked by the legitimate pipeline:
* `parse`: `InputParser::parse_triple_input` (line 91);
* `prove`: `ProvingEngine::prove_and_validate` (line 94), with the
  task/environment/client context folded in;
* `hashProof`: `Keccak256(postcard(proof))` as computed by
  `generate_proof_hash` (lines 173-176);
* `panics`: the join-layer oracle saying whether the spawned task at a
  given input index panics, so that its `JoinHandle` yields `Err`
  (line 142);
* `chainHash`/`chainSeed`: the chaining step and seed of
  `Task::combine_proof_hashes` (line 183), modelled from the spec
  (see `Task.combine_proof_hashes`). -/
structure PipelineExt where
  parse : InputData → Except ProverError TripleInput
  prove : TripleInput → Except ProverError Proof
  hashProof : Proof → String
  panics : Nat → Bool
  chainHash : String → String → String
  chainSeed : String

/-- All external collaborators, including the two used only by the
exploit code paths: `keccakStr` (`Keccak256` over a format string, used
by `generate_fake_hash`, line 223) and `fakeProof`
(`postcard::from_bytes(&[0u8; 32])`, used by
`create_minimal_fake_proof`, line 231; `none` models a
deserialization error). -/
structure Externals extends PipelineExt where
  keccakStr : String → String
  fakeProof : Option Proof

/-- `ProvingPipeline::generate_proof_hash` (lines 173-176): the keccak
digest of the serialized proof. -/
def ProvingPipeline.generate_proof_hash (E : PipelineExt) (proof : Proof) : String :=
  E.hashProof proof

/-- Modelled from the spec: `Task::combine_proof_hashes` (in `task.rs`,
not under `src/`) "reduce[s] the ordered sequence via a defined
deterministic fold (e.g., sequential hash chaining)", i.e.
`hash(hash(hash(seed, a), b), c)`; the chaining step and seed are the
external collaborators `chainHash`/`chainSeed`. -/
def ProverTask.combine_proof_hashes (E : PipelineExt) (proof_hashes : List String) : String :=
  proof_hashes.foldl E.chainHash E.chainSeed

/-- `ProvingPipeline::combine_proof_hashes` (lines 178-187): for
`AllProofHashes` and `ProofHash` tasks delegate to
`Task::combine_proof_hashes`; for every other task type
`proof_hashes.first().cloned().unwrap_or_default()`. -/
def ProvingPipeline.combine_proof_hashes (E : PipelineExt) (task : ProverTask)
    (proof_hashes : List String) : String :=
  match task.task_type with
  | .AllProofHashes => ProverTask.combine_proof_hashes E proof_hashes
  | .ProofHash => ProverTask.combine_proof_hashes E proof_hashes
  | _ => proof_hashes.head?.getD ""

/-- The body of one spawned task (the async closure of lines 76-106)
as a pure function of the two values it reads from the shared
cancellation flag: `c1` is the value of `is_cancelled()` observed
before starting (line 78) and `c2` the value observed immediately
after acquiring the semaphore permit (line 86).  Besides the task's
result, the two booleans record whether `parse_triple_input` and
`prove_and_validate` were invoked. -/
def ProvingPipeline.taskBodyTraced (E : PipelineExt) (input_data : InputData)
    (input_index : Nat) (c1 c2 : Bool) :
    Except ProverError (Proof × String × Nat) × Bool × Bool :=
  if c1 then (.error (.MalformedTask "Task cancelled"), false, false)
  else if c2 then (.error (.MalformedTask "Task cancelled"), false, false)
  else
    match E.parse input_data with
    | .error e => (.error e, true, false)
    | .ok inputs =>
      match E.prove inputs with
      | .error e => (.error e, true, true)
      | .ok proof =>
        (.ok (proof, ProvingPipeline.generate_proof_hash E proof, input_index), true, true)

/-- The value `join_all` yields for one handle: `Err` if the task
panicked, otherwise the task body's own `Result` (line 111). -/
abbrev JoinedResult := Except JoinErr (Except ProverError (Proof × String × Nat))

/-- The collector's mutable accumulators (lines 114-116):
`all_proofs`, `proof_hashes`, and `verification_failures` (the latter
stores the `(result_index, error)` data the code formats into
`"Input {i}: {e}"` together with the shared task/environment/client
context). -/
structure CollectAcc where
  all_proofs : List Proof
  proof_hashes : List String
  verification_failures : List (Nat × ProverError)
deriving DecidableEq, Repr

/-- Outcome of the collection loop of lines 118-146: either an early
`return Err(e)` — with the flag recording whether
`cancellation_token.cancel()` was invoked first (it is at line 137,
but not on the join-error path at line 143) — or fall-through with the
final accumulators. -/
inductive LoopOutcome
  | fatal (e : ProverError) (cancelInvoked : Bool)
  | completed (acc : CollectAcc)
deriving DecidableEq, Repr

/-- The result-collection loop (lines 118-146), iterating over the
joined results in order with `result_index`. -/
def ProvingPipeline.collectLoop : Nat → List JoinedResult → CollectAcc → LoopOutcome
  | _, [], acc => .completed acc
  | result_index, r :: rest, acc =>
    match r with
    | .ok (.ok (proof, proof_hash, _input_index)) =>
      ProvingPipeline.collectLoop (result_index + 1) rest
        ⟨acc.all_proofs ++ [proof], acc.proof_hashes ++ [proof_hash],
          acc.verification_failures⟩
    | .ok (.error e) =>
      if e.isRecoverable then
        ProvingPipeline.collectLoop (result_index + 1) rest
          ⟨acc.all_proofs, acc.proof_hashes,
            acc.verification_failures ++ [(result_index, e)]⟩
      else .fatal e true
    | .error join_error => .fatal (.JoinError join_error) false

/-- What `prove_fib_task` produces once `join_all` has returned:
the job result, whether the collector invoked
`cancellation_token.cancel()`, and the arguments handed to the
fire-and-forget `track_verification_failed` spawns (lines 150-157). -/
structure CollectResult where
  result : Except ProverError (List Proof × String × List String)
  cancelInvoked : Bool
  reported : List (Nat × ProverError)
deriving DecidableEq, Repr

/-- The synchronous tail of `prove_fib_task` after `join_all`
(lines 114-169): run the collection loop; on early return propagate
the fatal error (recoverable failures collected so far are dropped and
never reported); otherwise report every collected verification
failure, fail with the aggregate
`"{count} inputs failed verification"` error when the count is
positive (lines 160-165), and otherwise combine the hashes and
succeed (lines 167-169). -/
def ProvingPipeline.prove_fib_task_post (E : PipelineExt) (task : ProverTask)
    (results : List JoinedResult) : CollectResult :=
  match ProvingPipeline.collectLoop 0 results ⟨[], [], []⟩ with
  | .fatal e c => ⟨.error e, c, []⟩
  | .completed acc =>
    let failure_count := acc.verification_failures.length
    if failure_count > 0 then
      ⟨.error (.MalformedTask (toString failure_count ++ " inputs failed verification")),
        false, acc.verification_failures⟩
    else
      ⟨.ok (acc.all_proofs,
          ProvingPipeline.combine_proof_hashes E task acc.proof_hashes,
          acc.proof_hashes),
        false, acc.verification_failures⟩

/-- Phase of one spawned task in the small-step machine:
`notStarted` — spawned, first cancellation check not yet executed;
`waitingPermit` — passed the first check, queued on the semaphore;
`hasPermit` — permit acquired, re-check/parse not yet executed;
`running v` — input parsed to `v`, `prove_and_validate` in flight
(the permit is held);
`done r` — the body returned `r` and the permit (if any) was released
on scope exit. -/
inductive TaskPhase
  | notStarted
  | waitingPermit
  | hasPermit
  | running (v : TripleInput)
  | done (r : Except ProverError (Proof × String × Nat))
deriving DecidableEq, Repr

def TaskPhase.isDone : TaskPhase → Bool
  | .done _ => true
  | _ => false

/-- A task holds its admission permit from acquisition until scope
exit, i.e. exactly in the `hasPermit` and `running` phases. -/
def TaskPhase.holdsPermit : TaskPhase → Bool
  | .hasPermit => true
  | .running _ => true
  | _ => false

/-- The Unit Executor (`prove_and_validate`) is in flight exactly in
the `running` phase. -/
def TaskPhase.isRunning : TaskPhase → Bool
  | .running _ => true
  | _ => false

/-- Global state of one `prove_fib_task` invocation after spawning:
the per-task phases (indexed by input index), the cancellation token's
flag, the number of outstanding semaphore permits, and the collector's
result once the synchronous tail has run. -/
structure MachineState where
  phases : List TaskPhase
  cancelled : Bool
  outstanding : Nat
  finished : Option CollectResult
deriving DecidableEq, Repr

/-- One scheduler choice: advance the spawned task at index `i` by one
step, or run the collector (`join_all` + lines 114-169), which is
possible only once every task has completed. -/
inductive SchedStep
  | task (i : Nat)
  | collect
deriving DecidableEq, Repr

/-- The input payload of the task at index `i` (the element of
`all_inputs()` captured by the closure at line 72). -/
def inputAt (task : ProverTask) (i : Nat) : InputData := task.all_inputs.getD i ""

/-- The result the task at index `i` returns when it never observes
the cancellation flag set: parse the input (line 91), prove and
validate (line 94), hash (line 103), and return
`(proof, proof_hash, input_index)` (line 105). -/
def expectedResult (E : PipelineExt) (task : ProverTask) (i : Nat) :
    Except ProverError (Proof × String × Nat) :=
  match E.parse (inputAt task i) with
  | .error e => .error e
  | .ok v =>
    match E.prove v with
    | .error e => .error e
    | .ok proof => .ok (proof, ProvingPipeline.generate_proof_hash E proof, i)

/-- The joined results `join_all` hands the collector, in handle
(= spawn = input) order: `Err` for a panicked task, otherwise the
task's own result (taken from its `done` phase; the collector runs
only when every phase is `done`). -/
def joinFrom (E : PipelineExt) : Nat → List TaskPhase → List JoinedResult
  | _, [] => []
  | i, ph :: rest =>
    (if E.panics i then .error .panicked
     else match ph with
       | .done r => .ok r
       | _ => .ok (.error (.MalformedTask "Task cancelled"))) :: joinFrom E (i + 1) rest

def joinAllResults (E : PipelineExt) (phases : List TaskPhase) : List JoinedResult :=
  joinFrom E 0 phases

/-- The joined results as a function of the job alone: since the
cancellation flag is only ever set after `join_all` returns, the task
at index `i` always produces `expectedResult` (or a join error if it
panics).  `joinedExpectedFrom E task i n` lists indices `i, i+1, ...,
i+n-1`. -/
def joinedExpectedFrom (E : PipelineExt) (task : ProverTask) : Nat → Nat → List JoinedResult
  | _, 0 => []
  | i, n + 1 =>
    (if E.panics i then .error .panicked else .ok (expectedResult E task i)) ::
      joinedExpectedFrom E task (i + 1) n

def joinedExpected (E : PipelineExt) (task : ProverTask) : List JoinedResult :=
  joinedExpectedFrom E task 0 task.all_inputs.length

/-- One step of the machine.  The per-task steps mirror the closure of
lines 76-106; the `collect` step mirrors `join_all` (line 111) plus
the synchronous tail (lines 114-169), including the
`cancellation_token.cancel()` call on a fatal unit error
(line 137). -/
def stepMachine (E : PipelineExt) (task : ProverTask) (num_workers : Nat)
    (s : MachineState) : SchedStep → MachineState
  | .task i =>
    match s.phases.get? i with
    | none => s
    | some .notStarted =>
      if s.cancelled then
        { s with phases := s.phases.set i (.done (.error (.MalformedTask "Task cancelled"))) }
      else
        { s with phases := s.phases.set i .waitingPermit }
    | some .waitingPermit =>
      if s.outstanding < num_workers then
        { s with phases := s.phases.set i .hasPermit, outstanding := s.outstanding + 1 }
      else s
    | some .hasPermit =>
      if s.cancelled then
        { s with phases := s.phases.set i (.done (.error (.MalformedTask "Task cancelled"))),
                 outstanding := s.outstanding - 1 }
      else
        match E.parse (inputAt task i) with
        | .error e =>
          { s with phases := s.phases.set i (.done (.error e)),
                   outstanding := s.outstanding - 1 }
        | .ok v => { s with phases := s.phases.set i (.running v) }
    | some (.running v) =>
      { s with
          phases := s.phases.set i (.done
            (match E.prove v with
             | .error e => .error e
             | .ok proof => .ok (proof, ProvingPipeline.generate_proof_hash E proof, i))),
          outstanding := s.outstanding - 1 }
    | some (.done _) => s
  | .collect =>
    if s.finished.isSome then s
    else if s.phases.all TaskPhase.isDone then
      let cr := ProvingPipeline.prove_fib_task_post E task (joinAllResults E s.phases)
      { s with finished := some cr, cancelled := s.cancelled || cr.cancelInvoked }
    else s

/-- Run a whole schedule. -/
def runSched (E : PipelineExt) (task : ProverTask) (num_workers : Nat) :
    MachineState → List SchedStep → MachineState
  | s, [] => s
  | s, a :: rest => runSched E task num_workers (stepMachine E task num_workers s a) rest

/-- The state right after spawning (lines 64-108): one task per unit
input, none begun; flag clear (line 62); no permit outstanding
(`Semaphore::new(num_workers)`, line 59); no job result yet. -/
def initState (n : Nat) : MachineState :=
  ⟨List.replicate n .notStarted, false, 0, none⟩

/-- The machine for one `prove_fib_task` invocation under a given
schedule. -/
def runFib (E : PipelineExt) (task : ProverTask) (num_workers : Nat)
    (sched : List SchedStep) : MachineState :=
  runSched E task num_workers (initState task.all_inputs.length) sched

/-- `ProvingPipeline::prove_fib_task` (lines 39-170): reject an empty
input list before spawning anything (lines 47-51); otherwise spawn the
tasks and execute under the given schedule. -/
def ProvingPipeline.prove_fib_task_run (E : PipelineExt) (task : ProverTask)
    (num_workers : Nat) (sched : List SchedStep) : Except ProverError MachineState :=
  if task.all_inputs.isEmpty then
    .error (.MalformedTask "No inputs provided for task")
  else
    .ok (runFib E task num_workers sched)

/-- `ProvingPipeline::prove_authenticated` (lines 21-36): dispatch on
`program_id` — `"fib_input_initial"` goes to `prove_fib_task`,
anything else fails with the unsupported-program error.  Note that it
uses only the pipeline collaborators (`toPipelineExt`); the
exploit-only collaborators (`keccakStr`, `fakeProof`) are unreachable
from here. -/
def ProvingPipeline.prove_authenticated (E : Externals) (task : ProverTask)
    (num_workers : Nat) (sched : List SchedStep) : Except ProverError MachineState :=
  if task.program_id = "fib_input_initial" then
    ProvingPipeline.prove_fib_task_run E.toPipelineExt task num_workers sched
  else
    .error (.MalformedTask ("Unsupported program ID: " ++ task.program_id))

/-- `ProvingPipeline::generate_fake_hash` (lines 218-224): keccak of
`"{task_id}:{input_index}:{a}:{b}:{c}"`. -/
def ProvingPipeline.generate_fake_hash (E : Externals) (task_id : String)
    (input_index : Nat) (inputs : TripleInput) : String :=
  E.keccakStr (task_id ++ ":" ++ toString input_index ++ ":" ++ toString inputs.1
    ++ ":" ++ toString inputs.2.1 ++ ":" ++ toString inputs.2.2)

/-- `ProvingPipeline::create_minimal_fake_proof` (lines 226-234):
deserialize 32 zero bytes, mapping any error to
`Subprocess("Failed to create fake proof")`. -/
def ProvingPipeline.create_minimal_fake_proof (E : Externals) : Except ProverError Proof :=
  match E.fakeProof with
  | some p => .ok p
  | none => .error (.Subprocess "Failed to create fake proof")

/-- The loop of `exploit_proof_hash_task` (lines 198-210), over the
enumerated inputs. -/
def ProvingPipeline.exploitLoop (E : Externals) (task_id : String) :
    Nat → List InputData → Except ProverError (List Proof × List String)
  | _, [] => .ok ([], [])
  | input_index, input_data :: rest => do
    let inputs ← E.parse input_data
    let fake_hash := ProvingPipeline.generate_fake_hash E task_id input_index inputs
    let empty_proof ← ProvingPipeline.create_minimal_fake_proof E
    let (ps, hs) ← ProvingPipeline.exploitLoop E task_id (input_index + 1) rest
    .ok (empty_proof :: ps, fake_hash :: hs)

/-- `ProvingPipeline::exploit_proof_hash_task` (lines 189-216): the
fake-proof bypass.  It is defined here to make its unreachability from
`prove_authenticated` meaningful; nothing in the legitimate pipeline
refers to it. -/
def ProvingPipeline.exploit_proof_hash_task (E : Externals) (task : ProverTask) :
    Except ProverError (List Proof × String × List String) := do
  let (all_proofs, proof_hashes) ← ProvingPipeline.exploitLoop E task.task_id 0 task.all_inputs
  .ok (all_proofs, ProvingPipeline.combine_proof_hashes E.toPipelineExt task proof_hashes,
    proof_hashes)


/-! ## Concrete instances used by witnesses and counterexamples -/

/-- A trivial collaborator environment: every input parses, every unit
proves, nothing panics. -/
def extBase : PipelineExt :=
  { parse := fun _ => .ok (0, 1, 1)
    prove := fun _ => .ok 3
    hashProof := fun p => toString p
    panics := fun _ => false
    chainHash := fun a b => a ++ b
    chainSeed := "" }

/-- C1 witness environment: input `"r"` proves but fails verification
(recoverable), input `"bad"` fails parsing (fatal). -/
def extC1 : PipelineExt :=
  { parse := fun d => if d = "bad" then .error (.MalformedTask "bad input") else .ok (0, 1, 1)
    prove := fun v => if v = (0, 1, 1) then .error (.Stwo "proof verification failed") else .ok 7
    hashProof := fun p => toString p
    panics := fun _ => false
    chainHash := fun a b => a ++ b
    chainSeed := "" }

def taskC1 : ProverTask := ⟨"fib_input_initial", "task-1", .ProofHash, ["r", "bad"]⟩

def schedC1 : List SchedStep :=
  [.task 0, .task 0, .task 0, .task 0, .task 1, .task 1, .task 1, .collect]

/-- C1 counterexample environment: the single spawned task panics, so
its handle joins with an error. -/
def extC1j : PipelineExt :=
  { parse := fun _ => .ok (0, 1, 1)
    prove := fun _ => .ok 3
    hashProof := fun p => toString p
    panics := fun _ => true
    chainHash := fun a b => a ++ b
    chainSeed := "" }

def taskC1j : ProverTask := ⟨"fib_input_initial", "task-1j", .ProofHash, ["a"]⟩

def schedC1j : List SchedStep := [.task 0, .task 0, .task 0, .task 0, .collect]

/-- C2 witness environment: unit 0 fails verification (recoverable),
unit 1 succeeds. -/
def extC2 : PipelineExt :=
  { parse := fun d => .ok (if d = "r" then (0, 1, 1) else (1, 1, 2))
    prove := fun v => if v = (0, 1, 1) then .error (.Stwo "proof verification failed") else .ok 9
    hashProof := fun p => toString p
    panics := fun _ => false
    chainHash := fun a b => a ++ b
    chainSeed := "" }

def taskC2 : ProverTask := ⟨"fib_input_initial", "task-2", .ProofHash, ["r", "g"]⟩

def schedC2 : List SchedStep :=
  [.task 0, .task 0, .task 0, .task 0, .task 1, .task 1, .task 1, .task 1, .collect]

/-- C3 witness environment: both units succeed with distinct proofs. -/
def extC3 : PipelineExt :=
  { parse := fun d => .ok (if d = "a" then (0, 1, 1) else (1, 1, 2))
    prove := fun v => if v = (0, 1, 1) then .ok 5 else .ok 9
    hashProof := fun p => toString p
    panics := fun _ => false
    chainHash := fun a b => a ++ b
    chainSeed := "" }

def taskC3 : ProverTask := ⟨"fib_input_initial", "task-3", .AllProofHashes, ["a", "b"]⟩

/-- A schedule on which the second task completes before the first
(out-of-order completion). -/
def schedC3 : List SchedStep :=
  [.task 1, .task 1, .task 1, .task 1, .task 0, .task 0, .task 0, .task 0, .collect]

def taskC4 : ProverTask := ⟨"fib_input_initial", "task-4", .ProofHash, []⟩

def taskC5 : ProverTask := ⟨"fib_input_initial", "task-5", .ProofHash, ["a"]⟩

/-- C6 environment: five units, unit index 2 fails fatally at parsing,
all others succeed. -/
def extC6 : PipelineExt :=
  { parse := fun d => if d = "bad" then .error (.MalformedTask "bad input") else .ok (1, 1, 2)
    prove := fun _ => .ok 7
    hashProof := fun p => toString p
    panics := fun _ => false
    chainHash := fun a b => a ++ b
    chainSeed := "" }

def taskC6 : ProverTask :=
  ⟨"fib_input_initial", "task-6", .ProofRequired, ["a", "b", "bad", "d", "e"]⟩

/-- Prefix schedule: units 0, 1 and 2 run to completion (unit 2
fatally), units 3 and 4 have not started. -/
def schedC6pre : List SchedStep :=
  [.task 0, .task 0, .task 0, .task 0,
   .task 1, .task 1, .task 1, .task 1,
   .task 2, .task 2, .task 2]

/-- Full schedule: after unit 2's fatal completion, units 3 and 4 run
to completion, then the collector runs. -/
def schedC6 : List SchedStep :=
  schedC6pre ++
    [.task 3, .task 3, .task 3, .task 3, .task 4, .task 4, .task 4, .task 4, .collect]

def taskC8h : ProverTask := ⟨"fib_input_initial", "task-8", .AllProofHashes, []⟩

def taskC8o : ProverTask := ⟨"fib_input_initial", "task-8o", .ProofRequired, []⟩

/-- C10 environment, with exploit-only collaborators present. -/
def extC10 : Externals :=
  { parse := fun _ => .ok (0, 1, 1)
    prove := fun _ => .ok 3
    hashProof := fun p => toString p
    panics := fun _ => false
    chainHash := fun a b => a ++ b
    chainSeed := ""
    keccakStr := fun str => str
    fakeProof := none }

/-- Same pipeline collaborators as `extC10` but different exploit-only
collaborators. -/
def extC10v : Externals :=
  { extC10 with keccakStr := fun str => str ++ "x", fakeProof := some 0 }

def taskC10 : ProverTask := ⟨"other_program", "task-10", .ProofHash, ["a"]⟩

/-! ## List helpers -/

/-- Case analysis for `get?` after `set`: the looked-up element is
either the newly written one (at the written index) or an element of
the original list at the same position. -/
theorem list_get?_set_cases {α : Type} :
    ∀ (l : List α) (i j : Nat) (a x : α),
      (l.set i a).get? j = some x → (i = j ∧ x = a) ∨ l.get? j = some x := by
  intro l
  induction l with
  | nil => intro i j a x h; simp at h
  | cons b t ih =>
    intro i j a x h
    cases i with
    | zero =>
      cases j with
      | zero =>
        simp at h
        exact Or.inl ⟨rfl, h.symm⟩
      | succ j' => exact Or.inr (by simpa using h)
    | succ i' =>
      cases j with
      | zero => exact Or.inr (by simpa using h)
      | succ j' =>
        have h' : (t.set i' a).get? j' = some x := by simpa using h
        rcases ih i' j' a x h' with ⟨hij, hx⟩ | hg
        · exact Or.inl ⟨by rw [hij], hx⟩
        · exact Or.inr (by simpa using hg)

/-- Membership after `set`: every element of `l.set i a` is `a` or an
element of `l`. -/
theorem list_mem_set {α : Type} :
    ∀ (l : List α) (i : Nat) (a x : α), x ∈ l.set i a → x = a ∨ x ∈ l := by
  intro l
  induction l with
  | nil => intro i a x h; simp at h
  | cons b t ih =>
    intro i a x h
    cases i with
    | zero =>
      rcases List.mem_cons.mp (by simpa using h) with h1 | h1
      · exact Or.inl h1
      · exact Or.inr (List.mem_cons_of_mem _ h1)
    | succ i' =>
      rcases List.mem_cons.mp (by simpa using h) with h1 | h1
      · exact Or.inr (h1 ▸ List.mem_cons_self _ _)
      · rcases ih i' a x h1 with h2 | h2
        · exact Or.inl h2
        · exact Or.inr (List.mem_cons_of_mem _ h2)

/-- How `countP` changes when one position is overwritten. -/
theorem list_countP_set {α : Type} (p : α → Bool) :
    ∀ (l : List α) (i : Nat) (a b : α), l.get? i = some a →
      (l.set i b).countP p + (if p a then 1 else 0)
        = l.countP p + (if p b then 1 else 0) := by
  intro l
  induction l with
  | nil => intro i a b h; simp at h
  | cons c t ih =>
    intro i a b h
    cases i with
    | zero =>
      have ha : c = a := by simpa using h
      subst ha
      simp only [List.set, List.countP_cons]
      omega
    | succ i' =>
      have h' : t.get? i' = some a := by simpa using h
      have hih := ih i' a b h'
      simp only [List.set, List.countP_cons]
      omega

/-- `countP` is monotone in the predicate. -/
theorem list_countP_le {α : Type} (p q : α → Bool)
    (hpq : ∀ x, p x = true → q x = true) :
    ∀ l : List α, l.countP p ≤ l.countP q := by
  intro l
  induction l with
  | nil => simp
  | cons a t ih =>
    simp only [List.countP_cons]
    cases hp : p a with
    | false =>
      rw [if_neg (by simp : ¬((false : Bool) = true))]
      omega
    | true =>
      have hq := hpq a hp
      rw [hq]
      omega

/-! ## The pure collection loop -/

/-- The first-fatal scan of the collection loop: `none` for a success
or a recoverable failure; for a fatal element, the error the loop
returns together with whether the loop invokes `cancel()` first
(it does for a unit-level fatal error, line 137, but not for a
join error, line 143). -/
def fatalOf : JoinedResult → Option (ProverError × Bool)
  | .ok (.ok _) => none
  | .ok (.error e) => if e.isRecoverable then none else some (e, true)
  | .error je => some (.JoinError je, false)

/-- Whether a joined result is a recoverable (batched) failure. -/
def isRecoverableResult : JoinedResult → Bool
  | .ok (.error e) => e.isRecoverable
  | _ => false

/-- Number of recoverable failures among the joined results; this is
the collector's `failure_count` (line 149) whenever no fatal element
precedes them all. -/
def recoverableCount (rs : List JoinedResult) : Nat := rs.countP isRecoverableResult

/-- If the joined results contain a fatal element, the collection loop
returns the first one (in `result_index` order), invoking `cancel()`
exactly when that element is a unit-level error rather than a join
error. -/
theorem collectLoop_first_fatal (e : ProverError) (c : Bool) :
    ∀ (rs : List JoinedResult) (i : Nat) (acc : CollectAcc),
      rs.findSome? fatalOf = some (e, c) →
      ProvingPipeline.collectLoop i rs acc = .fatal e c := by
  intro rs
  induction rs with
  | nil => intro i acc h; simp [List.findSome?] at h
  | cons r rest ih =>
    intro i acc h
    rcases r with je | e' | ⟨p, hsh, idx⟩
    · simp only [List.findSome?_cons, fatalOf] at h
      simp only [Option.some.injEq, Prod.mk.injEq] at h
      obtain ⟨he, hc⟩ := h
      simp [ProvingPipeline.collectLoop, ← he, ← hc]
    · cases hre : e'.isRecoverable with
      | true =>
        have h' : rest.findSome? fatalOf = some (e, c) := by
          simpa [List.findSome?_cons, fatalOf, hre] using h
        simpa [ProvingPipeline.collectLoop, hre] using ih (i + 1) _ h'
      | false =>
        have h' : e' = e ∧ true = c := by
          simpa [List.findSome?_cons, fatalOf, hre] using h
        obtain ⟨he, hc⟩ := h'
        simp [ProvingPipeline.collectLoop, hre, ← he, ← hc]
    · have h' : rest.findSome? fatalOf = some (e, c) := by
        simpa [List.findSome?_cons, fatalOf] using h
      simpa [ProvingPipeline.collectLoop] using ih (i + 1) _ h'

/-- Without fatal elements the loop falls through, having appended one
verification failure per recoverable element. -/
theorem collectLoop_no_fatal :
    ∀ (rs : List JoinedResult) (i : Nat) (acc : CollectAcc),
      rs.findSome? fatalOf = none →
      ∃ acc' : CollectAcc,
        ProvingPipeline.collectLoop i rs acc = .completed acc' ∧
        acc'.verification_failures.length
          = acc.verification_failures.length + recoverableCount rs := by
  intro rs
  induction rs with
  | nil =>
    intro i acc _
    exact ⟨acc, rfl, by simp [recoverableCount]⟩
  | cons r rest ih =>
    intro i acc h
    rcases r with je | e' | ⟨p, hsh, idx⟩
    · simp [List.findSome?_cons, fatalOf] at h
    · cases hre : e'.isRecoverable with
      | false => simp [List.findSome?_cons, fatalOf, hre] at h
      | true =>
        have h' : rest.findSome? fatalOf = none := by
          simpa [List.findSome?_cons, fatalOf, hre] using h
        obtain ⟨acc', ha, hl⟩ := ih (i + 1)
          ⟨acc.all_proofs, acc.proof_hashes, acc.verification_failures ++ [(i, e')]⟩ h'
        refine ⟨acc', by simpa [ProvingPipeline.collectLoop, hre] using ha, ?_⟩
        rw [hl]
        simp [recoverableCount, List.countP_cons, isRecoverableResult, hre]
        omega
    · have h' : rest.findSome? fatalOf = none := by
        simpa [List.findSome?_cons, fatalOf] using h
      obtain ⟨acc', ha, hl⟩ := ih (i + 1)
        ⟨acc.all_proofs ++ [p], acc.proof_hashes ++ [hsh], acc.verification_failures⟩ h'
      refine ⟨acc', by simpa [ProvingPipeline.collectLoop] using ha, ?_⟩
      rw [hl]
      simp [recoverableCount, List.countP_cons, isRecoverableResult]

/-- When every joined result is a success, the loop accumulates the
proofs and the proof hashes in order. -/
theorem collectLoop_all_ok :
    ∀ (xs : List (Proof × String × Nat)) (i : Nat) (acc : CollectAcc),
      ProvingPipeline.collectLoop i (xs.map (fun x => Except.ok (Except.ok x))) acc
        = .completed ⟨acc.all_proofs ++ xs.map (fun x => x.1),
            acc.proof_hashes ++ xs.map (fun x => x.2.1),
            acc.verification_failures⟩ := by
  intro xs
  induction xs with
  | nil => intro i acc; simp [ProvingPipeline.collectLoop]
  | cons x rest ih =>
    intro i acc
    obtain ⟨p, hsh, idx⟩ := x
    simp only [List.map_cons, ProvingPipeline.collectLoop]
    rw [ih]
    simp

/-- `prove_fib_task_post` on joined results containing a fatal
element: the first fatal error is the job result, `cancel()` is
invoked exactly for a unit-level fatal error, and nothing is handed to
the failure reporter (recoverable failures collected before the fatal
one are discarded). -/
theorem post_first_fatal (E : PipelineExt) (task : ProverTask) (rs : List JoinedResult)
    (e : ProverError) (c : Bool) (h : rs.findSome? fatalOf = some (e, c)) :
    ProvingPipeline.prove_fib_task_post E task rs = ⟨.error e, c, []⟩ := by
  unfold ProvingPipeline.prove_fib_task_post
  rw [collectLoop_first_fatal e c rs 0 ⟨[], [], []⟩ h]

/-- `prove_fib_task_post` on joined results with no fatal element and
at least one recoverable failure: the aggregate
`"{k} inputs failed verification"` error, no `cancel()`, and exactly
`k` failures handed to the reporter. -/
theorem post_no_fatal (E : PipelineExt) (task : ProverTask) (rs : List JoinedResult)
    (h : rs.findSome? fatalOf = none) (hk : 0 < recoverableCount rs) :
    ∃ fs : List (Nat × ProverError),
      ProvingPipeline.prove_fib_task_post E task rs
        = ⟨.error (.MalformedTask (toString (recoverableCount rs)
            ++ " inputs failed verification")), false, fs⟩
      ∧ fs.length = recoverableCount rs := by
  obtain ⟨acc', ha, hl⟩ := collectLoop_no_fatal rs 0 ⟨[], [], []⟩ h
  simp only [List.length_nil, Nat.zero_add] at hl
  refine ⟨acc'.verification_failures, ?_, hl⟩
  unfold ProvingPipeline.prove_fib_task_post
  rw [ha]
  simp only [hl]
  rw [if_pos hk]

/-- `prove_fib_task_post` on all-success joined results: `Ok` with the
proofs, the combined hash, and the per-unit hash list, all in input
order. -/
theorem post_all_ok (E : PipelineExt) (task : ProverTask)
    (xs : List (Proof × String × Nat)) :
    ProvingPipeline.prove_fib_task_post E task (xs.map (fun x => Except.ok (Except.ok x)))
      = ⟨.ok (xs.map (fun x => x.1),
            ProvingPipeline.combine_proof_hashes E task (xs.map (fun x => x.2.1)),
            xs.map (fun x => x.2.1)), false, []⟩ := by
  unfold ProvingPipeline.prove_fib_task_post
  rw [collectLoop_all_ok]
  simp

/-! ## Joined results -/

theorem joinedExpectedFrom_length (E : PipelineExt) (task : ProverTask) :
    ∀ (n i : Nat), (joinedExpectedFrom E task i n).length = n := by
  intro n
  induction n with
  | zero => intro i; rfl
  | succ m ih => intro i; simp [joinedExpectedFrom, ih]

theorem joinedExpectedFrom_get? (E : PipelineExt) (task : ProverTask) :
    ∀ (n j i : Nat), j < n →
      (joinedExpectedFrom E task i n).get? j
        = some (if E.panics (i + j) then .error .panicked
                else .ok (expectedResult E task (i + j))) := by
  intro n
  induction n with
  | zero => intro j i h; omega
  | succ m ih =>
    intro j i h
    cases j with
    | zero => simp [joinedExpectedFrom]
    | succ j' =>
      have h' : j' < m := by omega
      simp only [joinedExpectedFrom, List.get?_cons_succ]
      rw [show i + (j' + 1) = i + 1 + j' from by omega]
      exact ih j' (i + 1) h'

/-- Once every task is done and each `done` result is the expected
one, the joined results computed from the phases coincide with
`joinedExpectedFrom`. -/
theorem joinFrom_eq (E : PipelineExt) (task : ProverTask) :
    ∀ (phases : List TaskPhase) (i : Nat),
      (∀ j r, phases.get? j = some (.done r) → r = expectedResult E task (i + j)) →
      phases.all TaskPhase.isDone = true →
      joinFrom E i phases = joinedExpectedFrom E task i phases.length := by
  intro phases
  induction phases with
  | nil => intro i _ _; rfl
  | cons ph rest ih =>
    intro i hdone hall
    rw [List.all_cons, Bool.and_eq_true] at hall
    obtain ⟨hd, htail⟩ := hall
    cases ph with
    | done r =>
      have hr : r = expectedResult E task i := by
        simpa using hdone 0 r (by simp)
      have hrest : joinFrom E (i + 1) rest = joinedExpectedFrom E task (i + 1) rest.length := by
        apply ih
        · intro j r' hj
          rw [hdone (j + 1) r' (by simpa using hj)]
          rw [show i + (j + 1) = i + 1 + j from by omega]
        · exact htail
      simp [joinFrom, joinedExpectedFrom, hrest, hr]
    | notStarted => simp [TaskPhase.isDone] at hd
    | waitingPermit => simp [TaskPhase.isDone] at hd
    | hasPermit => simp [TaskPhase.isDone] at hd
    | running v => simp [TaskPhase.isDone] at hd

/-! ## The machine invariant -/

/-- Reduction: stepping a task index beyond the list is a no-op. -/
theorem step_task_none (E : PipelineExt) (task : ProverTask) (w : Nat) (s : MachineState)
    (i : Nat) (hg : s.phases.get? i = none) :
    stepMachine E task w s (.task i) = s := by
  simp only [stepMachine]
  rw [hg]

/-- Reduction: stepping a completed task is a no-op. -/
theorem step_task_done (E : PipelineExt) (task : ProverTask) (w : Nat) (s : MachineState)
    (i : Nat) (r : Except ProverError (Proof × String × Nat))
    (hg : s.phases.get? i = some (.done r)) :
    stepMachine E task w s (.task i) = s := by
  simp only [stepMachine]
  rw [hg]

/-- Reduction: the first cancellation check with a clear flag lets the
task proceed to the semaphore queue. -/
theorem step_task_notStarted (E : PipelineExt) (task : ProverTask) (w : Nat)
    (s : MachineState) (i : Nat) (hg : s.phases.get? i = some .notStarted)
    (hc : s.cancelled = false) :
    stepMachine E task w s (.task i)
      = { s with phases := s.phases.set i .waitingPermit } := by
  simp only [stepMachine]
  rw [hg, hc]
  simp

/-- Reduction: the first cancellation check with the flag set resolves
the task to the cancellation error without touching the semaphore. -/
theorem step_task_notStarted_canc (E : PipelineExt) (task : ProverTask) (w : Nat)
    (s : MachineState) (i : Nat) (hg : s.phases.get? i = some .notStarted)
    (hc : s.cancelled = true) :
    stepMachine E task w s (.task i)
      = { s with
            phases := s.phases.set i (.done (.error (.MalformedTask "Task cancelled"))) } := by
  simp only [stepMachine]
  rw [hg, hc]
  simp

/-- Reduction: acquiring the semaphore when a permit is free. -/
theorem step_task_waiting_acq (E : PipelineExt) (task : ProverTask) (w : Nat)
    (s : MachineState) (i : Nat) (hg : s.phases.get? i = some .waitingPermit)
    (hlt : s.outstanding < w) :
    stepMachine E task w s (.task i)
      = { s with phases := s.phases.set i .hasPermit,
                 outstanding := s.outstanding + 1 } := by
  simp only [stepMachine]
  rw [hg]
  simp [hlt]

/-- Reduction: waiting on the semaphore when no permit is free. -/
theorem step_task_waiting_stuck (E : PipelineExt) (task : ProverTask) (w : Nat)
    (s : MachineState) (i : Nat) (hg : s.phases.get? i = some .waitingPermit)
    (hlt : ¬ s.outstanding < w) :
    stepMachine E task w s (.task i) = s := by
  simp only [stepMachine]
  rw [hg]
  simp [hlt]

/-- Reduction: permit held, flag clear, parsing fails — the task
completes with the parse error and releases the permit. -/
theorem step_task_hasPermit_err (E : PipelineExt) (task : ProverTask) (w : Nat)
    (s : MachineState) (i : Nat) (hg : s.phases.get? i = some .hasPermit)
    (hc : s.cancelled = false) (e : ProverError)
    (hp : E.parse (inputAt task i) = .error e) :
    stepMachine E task w s (.task i)
      = { s with phases := s.phases.set i (.done (.error e)),
                 outstanding := s.outstanding - 1 } := by
  simp only [stepMachine]
  rw [hg, hc, hp]
  simp

/-- Reduction: permit held, flag clear, parsing succeeds — the Unit
Executor starts. -/
theorem step_task_hasPermit_ok (E : PipelineExt) (task : ProverTask) (w : Nat)
    (s : MachineState) (i : Nat) (hg : s.phases.get? i = some .hasPermit)
    (hc : s.cancelled = false) (v : TripleInput)
    (hp : E.parse (inputAt task i) = .ok v) :
    stepMachine E task w s (.task i)
      = { s with phases := s.phases.set i (.running v) } := by
  simp only [stepMachine]
  rw [hg, hc, hp]
  simp

/-- Reduction: permit held, flag set — the task resolves to the
cancellation error and releases the permit without parsing. -/
theorem step_task_hasPermit_canc (E : PipelineExt) (task : ProverTask) (w : Nat)
    (s : MachineState) (i : Nat) (hg : s.phases.get? i = some .hasPermit)
    (hc : s.cancelled = true) :
    stepMachine E task w s (.task i)
      = { s with
            phases := s.phases.set i (.done (.error (.MalformedTask "Task cancelled"))),
            outstanding := s.outstanding - 1 } := by
  simp only [stepMachine]
  rw [hg, hc]
  simp

/-- Reduction: the Unit Executor finishes; the task completes with the
proving outcome and releases the permit. -/
theorem step_task_running (E : PipelineExt) (task : ProverTask) (w : Nat)
    (s : MachineState) (i : Nat) (v : TripleInput)
    (hg : s.phases.get? i = some (.running v)) :
    stepMachine E task w s (.task i)
      = { s with
          phases := s.phases.set i (.done
            (match E.prove v with
             | .error e => .error e
             | .ok proof => .ok (proof, ProvingPipeline.generate_proof_hash E proof, i))),
          outstanding := s.outstanding - 1 } := by
  simp only [stepMachine]
  rw [hg]

/-- Reduction: the collector is a no-op once the job result exists. -/
theorem step_collect_some (E : PipelineExt) (task : ProverTask) (w : Nat)
    (s : MachineState) (cr : CollectResult) (hfin : s.finished = some cr) :
    stepMachine E task w s .collect = s := by
  simp only [stepMachine]
  rw [hfin]
  simp

/-- Reduction: the collector cannot run before `join_all` completes,
i.e. while some task is not done. -/
theorem step_collect_wait (E : PipelineExt) (task : ProverTask) (w : Nat)
    (s : MachineState) (hfin : s.finished = none)
    (hall : s.phases.all TaskPhase.isDone = false) :
    stepMachine E task w s .collect = s := by
  simp only [stepMachine]
  rw [hfin, hall]
  simp

/-- Reduction: all tasks done and no result yet — the collector joins
the handles and runs the synchronous tail. -/
theorem step_collect_go (E : PipelineExt) (task : ProverTask) (w : Nat)
    (s : MachineState) (hfin : s.finished = none)
    (hall : s.phases.all TaskPhase.isDone = true) :
    stepMachine E task w s .collect
      = { s with
          finished := some (ProvingPipeline.prove_fib_task_post E task
            (joinAllResults E s.phases)),
          cancelled := s.cancelled
            || (ProvingPipeline.prove_fib_task_post E task
                (joinAllResults E s.phases)).cancelInvoked } := by
  simp only [stepMachine]
  rw [hfin, hall]
  simp

/-- Invariant of one `prove_fib_task` machine run: phase bookkeeping
matches the job; the semaphore count equals the number of
permit-holding tasks and respects the limit; completed tasks carry the
results determined by the external collaborators; the cancellation
flag can only have been set by the collector — which runs only after
every task has completed — and the published job result is the pure
collector applied to the joined expected results. -/
structure MachineInv (E : PipelineExt) (task : ProverTask) (w : Nat) (s : MachineState) :
    Prop where
  len : s.phases.length = task.all_inputs.length
  out_eq : s.outstanding = s.phases.countP TaskPhase.holdsPermit
  out_le : s.outstanding ≤ w
  done_exp : ∀ i r, s.phases.get? i = some (.done r) → r = expectedResult E task i
  run_par : ∀ i v, s.phases.get? i = some (.running v) → E.parse (inputAt task i) = .ok v
  canc_fin : s.cancelled = true → s.finished.isSome
  fin_done : s.finished.isSome → s.phases.all TaskPhase.isDone = true
  fin_val : ∀ cr, s.finished = some cr →
    cr = ProvingPipeline.prove_fib_task_post E task (joinedExpected E task)
    ∧ s.cancelled = cr.cancelInvoked

/-- If some task is not yet done, the collector has not produced a
result (it runs only after `join_all`). -/
theorem fin_none_of_not_done (E : PipelineExt) (task : ProverTask) (w : Nat)
    (s : MachineState) (h : MachineInv E task w s) (i : Nat) (ph : TaskPhase)
    (hg : s.phases.get? i = some ph) (hnd : ph.isDone = false) : s.finished = none := by
  rcases hf : s.finished with _ | cr
  · rfl
  · have hall := h.fin_done (by simp [hf])
    have hmem := List.all_eq_true.mp hall _ (List.get?_mem hg)
    simp [hnd] at hmem

/-- While the collector has not run, the cancellation flag is clear
(only the collector's line 137 ever sets it). -/
theorem cancelled_false_of_fin_none (E : PipelineExt) (task : ProverTask) (w : Nat)
    (s : MachineState) (h : MachineInv E task w s) (hfin : s.finished = none) :
    s.cancelled = false := by
  cases hc : s.cancelled
  · rfl
  · have := h.canc_fin hc
    simp [hfin] at this

/-- The machine invariant holds in the freshly-spawned state. -/
theorem machineInv_init (E : PipelineExt) (task : ProverTask) (w : Nat) :
    MachineInv E task w (initState task.all_inputs.length) := by
  refine ⟨?_, ?_, ?_, ?_, ?_, ?_, ?_, ?_⟩
  · simp [initState]
  · show 0 = _
    symm
    rw [List.countP_eq_zero]
    intro a ha
    rw [List.eq_of_mem_replicate ha]
    simp [TaskPhase.holdsPermit]
  · exact Nat.zero_le w
  · intro i r hr
    have := List.eq_of_mem_replicate (List.get?_mem hr)
    cases this
  · intro i v hv
    have := List.eq_of_mem_replicate (List.get?_mem hv)
    cases this
  · intro hc
    cases hc
  · intro hf
    simp [initState] at hf
  · intro cr hcr
    simp [initState] at hcr

/-- Every machine step preserves the invariant. -/
theorem machineInv_step (E : PipelineExt) (task : ProverTask) (w : Nat) (s : MachineState)
    (h : MachineInv E task w s) (a : SchedStep) :
    MachineInv E task w (stepMachine E task w s a) := by
  cases a with
  | collect =>
    rcases hfin : s.finished with _ | cr0
    · cases hall : s.phases.all TaskPhase.isDone with
      | false =>
        rw [step_collect_wait E task w s hfin hall]
        exact h
      | true =>
        have hcanc : s.cancelled = false :=
          cancelled_false_of_fin_none E task w s h hfin
        have hjoin : joinAllResults E s.phases = joinedExpected E task := by
          unfold joinAllResults joinedExpected
          rw [joinFrom_eq E task s.phases 0
            (fun j r hj => by simpa using h.done_exp j r hj) hall, h.len]
        rw [step_collect_go E task w s hfin hall, hjoin]
        refine ⟨h.len, h.out_eq, h.out_le, h.done_exp, h.run_par, ?_, ?_, ?_⟩
        · intro _
          simp
        · intro _
          exact hall
        · intro cr hcr
          simp only [Option.some.injEq] at hcr
          refine ⟨hcr.symm, ?_⟩
          rw [hcanc, Bool.false_or, ← hcr]
    · rw [step_collect_some E task w s cr0 hfin]
      exact h
  | task i =>
    rcases hg : s.phases.get? i with _ | ph
    · rw [step_task_none E task w s i hg]
      exact h
    · cases ph with
      | done r =>
        rw [step_task_done E task w s i r hg]
        exact h
      | notStarted =>
        have hfin : s.finished = none :=
          fin_none_of_not_done E task w s h i _ hg (by simp [TaskPhase.isDone])
        have hcanc : s.cancelled = false :=
          cancelled_false_of_fin_none E task w s h hfin
        rw [step_task_notStarted E task w s i hg hcanc]
        have hcount := list_countP_set TaskPhase.holdsPermit s.phases i _ .waitingPermit hg
        simp [TaskPhase.holdsPermit] at hcount
        refine ⟨?_, ?_, h.out_le, ?_, ?_, ?_, ?_, ?_⟩
        · simpa [List.length_set] using h.len
        · have hq := h.out_eq
          dsimp only
          omega
        · intro j r hj
          rcases list_get?_set_cases _ _ _ _ _ hj with ⟨hij, hx⟩ | hold
          · cases hx
          · exact h.done_exp j r hold
        · intro j v hj
          rcases list_get?_set_cases _ _ _ _ _ hj with ⟨hij, hx⟩ | hold
          · cases hx
          · exact h.run_par j v hold
        · intro hc
          rw [hcanc] at hc
          cases hc
        · intro hf
          simp [hfin] at hf
        · intro cr hcr
          simp [hfin] at hcr
      | waitingPermit =>
        have hfin : s.finished = none :=
          fin_none_of_not_done E task w s h i _ hg (by simp [TaskPhase.isDone])
        by_cases hlt : s.outstanding < w
        · rw [step_task_waiting_acq E task w s i hg hlt]
          have hcount := list_countP_set TaskPhase.holdsPermit s.phases i _ .hasPermit hg
          simp [TaskPhase.holdsPermit] at hcount
          refine ⟨?_, ?_, ?_, ?_, ?_, ?_, ?_, ?_⟩
          · simpa [List.length_set] using h.len
          · have hq := h.out_eq
            dsimp only
            omega
          · dsimp only
            omega
          · intro j r hj
            rcases list_get?_set_cases _ _ _ _ _ hj with ⟨hij, hx⟩ | hold
            · cases hx
            · exact h.done_exp j r hold
          · intro j v hj
            rcases list_get?_set_cases _ _ _ _ _ hj with ⟨hij, hx⟩ | hold
            · cases hx
            · exact h.run_par j v hold
          · intro hc
            exact h.canc_fin hc
          · intro hf
            simp [hfin] at hf
          · intro cr hcr
            simp [hfin] at hcr
        · rw [step_task_waiting_stuck E task w s i hg hlt]
          exact h
      | hasPermit =>
        have hfin : s.finished = none :=
          fin_none_of_not_done E task w s h i _ hg (by simp [TaskPhase.isDone])
        have hcanc : s.cancelled = false :=
          cancelled_false_of_fin_none E task w s h hfin
        have hcnt_pos : 0 < s.phases.countP TaskPhase.holdsPermit := by
          rw [List.countP_pos]
          exact ⟨_, List.get?_mem hg, by simp [TaskPhase.holdsPermit]⟩
        rcases hp : E.parse (inputAt task i) with e | v
        · rw [step_task_hasPermit_err E task w s i hg hcanc e hp]
          have hcount := list_countP_set TaskPhase.holdsPermit s.phases i _
            (.done (.error e)) hg
          simp [TaskPhase.holdsPermit] at hcount
          refine ⟨?_, ?_, ?_, ?_, ?_, ?_, ?_, ?_⟩
          · simpa [List.length_set] using h.len
          · have hq := h.out_eq
            dsimp only
            omega
          · have := h.out_le
            dsimp only
            omega
          · intro j r hj
            rcases list_get?_set_cases _ _ _ _ _ hj with ⟨hij, hx⟩ | hold
            · injection hx with hx'
              subst hij
              rw [hx']
              unfold expectedResult
              rw [hp]
            · exact h.done_exp j r hold
          · intro j v' hj
            rcases list_get?_set_cases _ _ _ _ _ hj with ⟨hij, hx⟩ | hold
            · cases hx
            · exact h.run_par j v' hold
          · intro hc
            rw [hcanc] at hc
            cases hc
          · intro hf
            simp [hfin] at hf
          · intro cr hcr
            simp [hfin] at hcr
        · rw [step_task_hasPermit_ok E task w s i hg hcanc v hp]
          have hcount := list_countP_set TaskPhase.holdsPermit s.phases i _ (.running v) hg
          simp [TaskPhase.holdsPermit] at hcount
          refine ⟨?_, ?_, h.out_le, ?_, ?_, ?_, ?_, ?_⟩
          · simpa [List.length_set] using h.len
          · have hq := h.out_eq
            dsimp only
            omega
          · intro j r hj
            rcases list_get?_set_cases _ _ _ _ _ hj with ⟨hij, hx⟩ | hold
            · cases hx
            · exact h.done_exp j r hold
          · intro j v' hj
            rcases list_get?_set_cases _ _ _ _ _ hj with ⟨hij, hx⟩ | hold
            · injection hx with hx'
              subst hij
              subst hx'
              exact hp
            · exact h.run_par j v' hold
          · intro hc
            rw [hcanc] at hc
            cases hc
          · intro hf
            simp [hfin] at hf
          · intro cr hcr
            simp [hfin] at hcr
      | running v =>
        have hfin : s.finished = none :=
          fin_none_of_not_done E task w s h i _ hg (by simp [TaskPhase.isDone])
        have hpar := h.run_par i v hg
        have hcnt_pos : 0 < s.phases.countP TaskPhase.holdsPermit := by
          rw [List.countP_pos]
          exact ⟨_, List.get?_mem hg, by simp [TaskPhase.holdsPermit]⟩
        rw [step_task_running E task w s i v hg]
        have hcount := list_countP_set TaskPhase.holdsPermit s.phases i _
          (.done (match E.prove v with
            | .error e => .error e
            | .ok proof => .ok (proof, ProvingPipeline.generate_proof_hash E proof, i))) hg
        simp [TaskPhase.holdsPermit] at hcount
        refine ⟨?_, ?_, ?_, ?_, ?_, ?_, ?_, ?_⟩
        · simpa [List.length_set] using h.len
        · have hq := h.out_eq
          dsimp only
          omega
        · have := h.out_le
          dsimp only
          omega
        · intro j r hj
          rcases list_get?_set_cases _ _ _ _ _ hj with ⟨hij, hx⟩ | hold
          · injection hx with hx'
            subst hij
            rw [hx']
            unfold expectedResult
            rw [hpar]
          · exact h.done_exp j r hold
        · intro j v' hj
          rcases list_get?_set_cases _ _ _ _ _ hj with ⟨hij, hx⟩ | hold
          · cases hx
          · exact h.run_par j v' hold
        · intro hc
          exact h.canc_fin hc
        · intro hf
          simp [hfin] at hf
        · intro cr hcr
          simp [hfin] at hcr

/-! ## Run-level lemmas -/

/-- The invariant holds along every schedule. -/
theorem machineInv_runSched (E : PipelineExt) (task : ProverTask) (w : Nat) :
    ∀ (sched : List SchedStep) (s : MachineState), MachineInv E task w s →
      MachineInv E task w (runSched E task w s sched) := by
  intro sched
  induction sched with
  | nil => intro s h; exact h
  | cons a rest ih =>
    intro s h
    exact ih _ (machineInv_step E task w s h a)

/-- The invariant holds in every reachable state of a job run. -/
theorem machineInv_runFib (E : PipelineExt) (task : ProverTask) (w : Nat)
    (sched : List SchedStep) : MachineInv E task w (runFib E task w sched) :=
  machineInv_runSched E task w sched _ (machineInv_init E task w)

/-- After the collector has produced the job result (which requires
every task to be done), every further step is a no-op. -/
theorem step_frozen (E : PipelineExt) (task : ProverTask) (w : Nat) (s : MachineState)
    (hall : s.phases.all TaskPhase.isDone = true) (cr : CollectResult)
    (hfin : s.finished = some cr) (a : SchedStep) :
    stepMachine E task w s a = s := by
  cases a with
  | collect => exact step_collect_some E task w s cr hfin
  | task i =>
    rcases hg : s.phases.get? i with _ | ph
    · exact step_task_none E task w s i hg
    · have hd := List.all_eq_true.mp hall _ (List.get?_mem hg)
      cases ph with
      | done r => exact step_task_done E task w s i r hg
      | notStarted => simp [TaskPhase.isDone] at hd
      | waitingPermit => simp [TaskPhase.isDone] at hd
      | hasPermit => simp [TaskPhase.isDone] at hd
      | running v => simp [TaskPhase.isDone] at hd

/-- A frozen state stays frozen along any further schedule. -/
theorem runSched_frozen (E : PipelineExt) (task : ProverTask) (w : Nat) :
    ∀ (sched : List SchedStep) (s : MachineState),
      s.phases.all TaskPhase.isDone = true → ∀ cr, s.finished = some cr →
      runSched E task w s sched = s := by
  intro sched
  induction sched with
  | nil => intro s _ _ _; rfl
  | cons a rest ih =>
    intro s hall cr hfin
    show runSched E task w (stepMachine E task w s a) rest = s
    rw [step_frozen E task w s hall cr hfin a]
    exact ih s hall cr hfin

/-- State predicate for a zero-permit run: every spawned task is still
before admission, no permit is out, the flag is clear, and there is no
job result. -/
structure Unstarted (s : MachineState) : Prop where
  phases_wait : ∀ ph ∈ s.phases, ph = TaskPhase.notStarted ∨ ph = TaskPhase.waitingPermit
  fin_none : s.finished = none
  out_zero : s.outstanding = 0
  canc_false : s.cancelled = false
  ne_nil : s.phases ≠ []

/-- With `num_workers = 0`, no step makes progress: the semaphore
never grants a permit, so no task gets past `waitingPermit`, and the
collector never fires. -/
theorem unstarted_step (E : PipelineExt) (task : ProverTask) (s : MachineState)
    (h : Unstarted s) (a : SchedStep) : Unstarted (stepMachine E task 0 s a) := by
  obtain ⟨hph, hfin, hout, hcanc, hne⟩ := h
  cases a with
  | collect =>
    have hnotall : s.phases.all TaskPhase.isDone = false := by
      rcases hl : s.phases with _ | ⟨ph0, rest⟩
      · exact absurd hl hne
      · have hmem : ph0 ∈ s.phases := by
          rw [hl]
          exact List.mem_cons_self _ _
        rcases hph ph0 hmem with h0 | h0 <;> subst h0 <;> simp [TaskPhase.isDone]
    rw [step_collect_wait E task 0 s hfin hnotall]
    exact ⟨hph, hfin, hout, hcanc, hne⟩
  | task i =>
    rcases hg : s.phases.get? i with _ | ph
    · rw [step_task_none E task 0 s i hg]
      exact ⟨hph, hfin, hout, hcanc, hne⟩
    · rcases hph ph (List.get?_mem hg) with h0 | h0
      · subst h0
        rw [step_task_notStarted E task 0 s i hg hcanc]
        refine ⟨?_, hfin, hout, hcanc, ?_⟩
        · intro ph' hp'
          rcases list_mem_set _ _ _ _ hp' with h1 | h1
          · exact Or.inr h1
          · exact hph ph' h1
        · intro hcon
          have hlen := congrArg List.length hcon
          rw [List.length_set] at hlen
          exact hne (List.length_eq_zero.mp hlen)
      · subst h0
        rw [step_task_waiting_stuck E task 0 s i hg (by omega)]
        exact ⟨hph, hfin, hout, hcanc, hne⟩

/-- `Unstarted` is preserved along every schedule at limit 0. -/
theorem unstarted_runSched (E : PipelineExt) (task : ProverTask) :
    ∀ (sched : List SchedStep) (s : MachineState), Unstarted s →
      Unstarted (runSched E task 0 s sched) := by
  intro sched
  induction sched with
  | nil => intro s h; exact h
  | cons a rest ih =>
    intro s h
    exact ih _ (unstarted_step E task s h a)

/-- Unfolding `prove_fib_task_run` on a nonempty job. -/
theorem prove_fib_task_run_ok (E : PipelineExt) (task : ProverTask) (w : Nat)
    (sched : List SchedStep) (s : MachineState)
    (h : ProvingPipeline.prove_fib_task_run E task w sched = .ok s) :
    task.all_inputs ≠ [] ∧ s = runFib E task w sched := by
  unfold ProvingPipeline.prove_fib_task_run at h
  by_cases he : task.all_inputs.isEmpty
  · rw [if_pos he] at h
    cases h
  · rw [if_neg he] at h
    refine ⟨by simpa [List.isEmpty_iff] using he, ?_⟩
    injection h with h'
    exact h'.symm

/-- The third component of a successful unit result is its input
index. -/
theorem expectedResult_ok_index (E : PipelineExt) (task : ProverTask) (i : Nat)
    (x : Proof × String × Nat) (h : expectedResult E task i = .ok x) : x.2.2 = i := by
  unfold expectedResult at h
  rcases hp : E.parse (inputAt task i) with e | v
  · simp only [hp] at h
    simp at h
  · simp only [hp] at h
    rcases hq : E.prove v with e | proof
    · simp only [hq] at h
      simp at h
    · simp only [hq] at h
      injection h with h'
      rw [← h']

/-! ## Claim theorems -/

/-- C4: for every job whose unit-input sequence is empty,
`prove_fib_task` returns the empty-job error
`MalformedTask "No inputs provided for task"` before spawning any
task: the result is the same for every collaborator environment,
concurrency limit, and schedule, so no task runs, no permit is
acquired, and the Unit Executor is never invoked. -/
theorem fib_empty_job_error (task : ProverTask) (h : task.all_inputs = []) :
    ∀ (E : PipelineExt) (w : Nat) (sched : List SchedStep),
      ProvingPipeline.prove_fib_task_run E task w sched
        = .error (.MalformedTask "No inputs provided for task") := by
  intro E w sched
  unfold ProvingPipeline.prove_fib_task_run
  rw [if_pos (by simp [h])]

/-- C4, witness: the empty-input job at a concrete environment. -/
theorem fib_empty_job_error_witness :
    taskC4.all_inputs = []
    ∧ ProvingPipeline.prove_fib_task_run extBase taskC4 4 [.collect]
        = .error (.MalformedTask "No inputs provided for task") :=
  ⟨rfl, fib_empty_job_error taskC4 rfl extBase 4 [.collect]⟩

/-- C5 (amended): `prove_fib_task` performs no validation of the
concurrency limit.  Called with `num_workers = 0` on a nonempty job
(negative values are unrepresentable in the `usize` argument), it
returns no configuration error — it spawns one task per unit and then,
under every schedule, no task is ever admitted past the semaphore: no
permit is outstanding, no unit ever parses or runs the executor, and
the job never produces any result. -/
theorem fib_zero_workers_no_progress (E : PipelineExt) (task : ProverTask)
    (sched : List SchedStep) (s : MachineState)
    (hrun : ProvingPipeline.prove_fib_task_run E task 0 sched = .ok s) :
    s.finished = none ∧ s.outstanding = 0
    ∧ ∀ ph ∈ s.phases, ph = TaskPhase.notStarted ∨ ph = TaskPhase.waitingPermit := by
  obtain ⟨hne, hs⟩ := prove_fib_task_run_ok E task 0 sched s hrun
  subst hs
  have h0 : Unstarted (initState task.all_inputs.length) := by
    refine ⟨?_, rfl, rfl, rfl, ?_⟩
    · intro ph hp
      exact Or.inl (List.eq_of_mem_replicate hp)
    · intro hc
      have hlen := congrArg List.length hc
      simp [initState] at hlen
      exact hne hlen
  have hU := unstarted_runSched E task sched _ h0
  exact ⟨hU.fin_none, hU.out_zero, hU.phases_wait⟩

/-- C5, witness: a concrete zero-limit run after two scheduler steps
and a collector attempt. -/
theorem fib_zero_workers_no_progress_witness :
    ProvingPipeline.prove_fib_task_run extBase taskC5 0 [.task 0, .task 0, .collect]
        = .ok (runFib extBase taskC5 0 [.task 0, .task 0, .collect])
    ∧ ((runFib extBase taskC5 0 [.task 0, .task 0, .collect]).finished = none
        ∧ (runFib extBase taskC5 0 [.task 0, .task 0, .collect]).outstanding = 0
        ∧ ∀ ph ∈ (runFib extBase taskC5 0 [.task 0, .task 0, .collect]).phases,
            ph = TaskPhase.notStarted ∨ ph = TaskPhase.waitingPermit) :=
  ⟨rfl, fib_zero_workers_no_progress extBase taskC5 [.task 0, .task 0, .collect] _ rfl⟩

/-- C5, counterexample: the claim says a limit of 0 fails the job with
a configuration error before any unit runs, with no task spawned.  In
the code there is no such check: with `num_workers = 0` on this
concrete nonempty job, `prove_fib_task` does not return any error — it
spawns the unit's task, which then sits waiting for a permit that is
never granted, and no job result is ever produced (the general
`fib_zero_workers_no_progress` extends this to every schedule). -/
theorem fib_zero_workers_counterexample :
    ProvingPipeline.prove_fib_task_run extBase taskC5 0 [.task 0, .task 0, .collect]
        = .ok (runFib extBase taskC5 0 [.task 0, .task 0, .collect])
    ∧ (runFib extBase taskC5 0 [.task 0, .task 0, .collect]).finished = none
    ∧ (runFib extBase taskC5 0 [.task 0, .task 0, .collect]).phases
        = [TaskPhase.waitingPermit] := by
  refine ⟨rfl, by decide, by decide⟩

/-- C7: every spawned task that observes the cancellation flag set —
either at the check before starting (line 78) or at the re-check
right after acquiring its permit (line 86) — resolves to the
cancellation error `MalformedTask "Task cancelled"` without invoking
the Unit Executor: the input is not parsed and `prove_and_validate`
is not called (both invocation flags are `false`). -/
theorem task_cancelled_skips_executor (E : PipelineExt) (input_data : InputData)
    (input_index : Nat) (c1 c2 : Bool) (h : c1 = true ∨ c2 = true) :
    ProvingPipeline.taskBodyTraced E input_data input_index c1 c2
      = (.error (.MalformedTask "Task cancelled"), false, false) := by
  rcases h with h | h
  · subst h
    rfl
  · subst h
    cases c1
    · rfl
    · rfl

/-- C7, witness: a task observing the flag at the first check. -/
theorem task_cancelled_skips_executor_witness :
    ((true : Bool) = true ∨ (false : Bool) = true)
    ∧ ProvingPipeline.taskBodyTraced extBase "a" 0 true false
        = (.error (.MalformedTask "Task cancelled"), false, false) :=
  ⟨Or.inl rfl, task_cancelled_skips_executor extBase "a" 0 true false (Or.inl rfl)⟩

/-- C8: `combine_proof_hashes` is a pure, total, deterministic
function of the task-type tag and the ordered hash sequence: for
`AllProofHashes` and `ProofHash` it is the chaining fold of
`Task::combine_proof_hashes`; for every other kind it returns the
first element — so the result depends only on the first element — and
on the empty sequence it returns the default `""` rather than an
error. -/
theorem combine_proof_hashes_spec (E : PipelineExt) (task : ProverTask)
    (hs : List String) :
    (task.task_type = .AllProofHashes ∨ task.task_type = .ProofHash →
      ProvingPipeline.combine_proof_hashes E task hs = hs.foldl E.chainHash E.chainSeed)
    ∧ (task.task_type ≠ .AllProofHashes → task.task_type ≠ .ProofHash →
        ProvingPipeline.combine_proof_hashes E task hs = hs.head?.getD ""
        ∧ ProvingPipeline.combine_proof_hashes E task [] = ""
        ∧ ∀ (h : String) (rest rest' : List String),
            ProvingPipeline.combine_proof_hashes E task (h :: rest)
              = ProvingPipeline.combine_proof_hashes E task (h :: rest')) := by
  cases htt : task.task_type with
  | AllProofHashes =>
    refine ⟨fun _ => ?_, fun hne _ => absurd rfl hne⟩
    simp [ProvingPipeline.combine_proof_hashes, ProverTask.combine_proof_hashes, htt]
  | ProofHash =>
    refine ⟨fun _ => ?_, fun _ hne => absurd rfl hne⟩
    simp [ProvingPipeline.combine_proof_hashes, ProverTask.combine_proof_hashes, htt]
  | ProofRequired =>
    refine ⟨fun hor => ?_, fun _ _ => ⟨?_, ?_, ?_⟩⟩
    · rcases hor with hh | hh <;> cases hh
    · simp [ProvingPipeline.combine_proof_hashes, htt]
    · simp [ProvingPipeline.combine_proof_hashes, htt]
    · intro hh rest rest'
      simp [ProvingPipeline.combine_proof_hashes, htt]

/-- C8, witness: the chain-hash kind folds, the first-only kind keeps
the first element, and the empty sequence yields the default. -/
theorem combine_proof_hashes_spec_witness :
    (taskC8h.task_type = .AllProofHashes ∨ taskC8h.task_type = .ProofHash)
    ∧ ProvingPipeline.combine_proof_hashes extBase taskC8h ["a", "b"]
        = ["a", "b"].foldl extBase.chainHash extBase.chainSeed
    ∧ ProvingPipeline.combine_proof_hashes extBase taskC8o ["a", "b"]
        = ["a", "b"].head?.getD ""
    ∧ ProvingPipeline.combine_proof_hashes extBase taskC8o [] = "" :=
  ⟨Or.inl rfl,
    (combine_proof_hashes_spec extBase taskC8h ["a", "b"]).1 (Or.inl rfl),
    ((combine_proof_hashes_spec extBase taskC8o ["a", "b"]).2 (by decide) (by decide)).1,
    ((combine_proof_hashes_spec extBase taskC8o ["a", "b"]).2 (by decide) (by decide)).2.1⟩

/-- C9: in every reachable state of every job execution, the number of
outstanding admission permits never exceeds the configured limit
`num_workers`, the number of in-flight Unit Executor invocations never
exceeds the outstanding permits (every runner holds its permit from
acquisition to the end of its critical section), and hence the
concurrent executor invocations never exceed the limit. -/
theorem fib_permit_bound (E : PipelineExt) (task : ProverTask) (w : Nat)
    (sched : List SchedStep) :
    (runFib E task w sched).outstanding ≤ w
    ∧ (runFib E task w sched).phases.countP TaskPhase.isRunning
        ≤ (runFib E task w sched).outstanding
    ∧ (runFib E task w sched).phases.countP TaskPhase.isRunning ≤ w := by
  have hinv := machineInv_runFib E task w sched
  have hrun_le : (runFib E task w sched).phases.countP TaskPhase.isRunning
      ≤ (runFib E task w sched).phases.countP TaskPhase.holdsPermit := by
    apply list_countP_le
    intro x hx
    cases x with
    | running v => rfl
    | notStarted => simp [TaskPhase.isRunning] at hx
    | waitingPermit => simp [TaskPhase.isRunning] at hx
    | hasPermit => simp [TaskPhase.isRunning] at hx
    | done r => simp [TaskPhase.isRunning] at hx
  refine ⟨hinv.out_le, ?_, ?_⟩
  · rw [hinv.out_eq]
    exact hrun_le
  · exact le_trans (by rw [hinv.out_eq]; exact hrun_le) hinv.out_le

/-- C10: `prove_authenticated` dispatches exactly on the program id:
`"fib_input_initial"` delegates to `prove_fib_task`; any other id
yields the `Unsupported program ID` error for every collaborator
environment, limit, and schedule (so no unit is processed); and the
result never depends on the exploit-only collaborators (`keccakStr`,
`fakeProof`) — the only externals that `exploit_proof_hash_task`,
`generate_fake_hash`, and `create_minimal_fake_proof` use beyond the
pipeline's own — so the fake-proof bypass cannot influence any result
reachable from this entry point. -/
theorem prove_authenticated_spec (E : Externals) (task : ProverTask) (w : Nat)
    (sched : List SchedStep) :
    (task.program_id = "fib_input_initial" →
      ProvingPipeline.prove_authenticated E task w sched
        = ProvingPipeline.prove_fib_task_run E.toPipelineExt task w sched)
    ∧ (task.program_id ≠ "fib_input_initial" →
      ProvingPipeline.prove_authenticated E task w sched
        = .error (.MalformedTask ("Unsupported program ID: " ++ task.program_id)))
    ∧ (∀ E' : Externals, E'.toPipelineExt = E.toPipelineExt →
      ProvingPipeline.prove_authenticated E' task w sched
        = ProvingPipeline.prove_authenticated E task w sched) := by
  refine ⟨fun h => ?_, fun h => ?_, fun E' hE => ?_⟩
  · simp [ProvingPipeline.prove_authenticated, h]
  · simp [ProvingPipeline.prove_authenticated, h]
  · unfold ProvingPipeline.prove_authenticated
    rw [hE]

/-- C10, witness: an unsupported program id yields the malformed-task
error, and changing only the exploit-only collaborators leaves the
result unchanged. -/
theorem prove_authenticated_spec_witness :
    taskC10.program_id ≠ "fib_input_initial"
    ∧ ProvingPipeline.prove_authenticated extC10 taskC10 1 []
        = .error (.MalformedTask ("Unsupported program ID: " ++ taskC10.program_id))
    ∧ ProvingPipeline.prove_authenticated extC10v taskC10 1 []
        = ProvingPipeline.prove_authenticated extC10 taskC10 1 [] :=
  ⟨by decide,
    (prove_authenticated_spec extC10 taskC10 1 []).2.1 (by decide),
    (prove_authenticated_spec extC10 taskC10 1 []).2.2 extC10v rfl⟩

/-- C1 (amended): if the joined unit results contain at least one
fatal failure (any error other than a `Stwo` verification failure or a
`GuestProgram` failure, including a task-join failure), then the job
result is the first fatal error in result order; every task handle is
drained before the collector runs (`join_all` precedes
classification); recoverable failures collected so far are discarded —
none is reported or counted.  The collector invokes the Cancellation
Signal only when the first fatal failure is a unit-returned error:
for a task-join failure it returns `JoinError` without invoking
`cancel()` (the amendment the counterexample forces). -/
theorem fib_first_fatal_result (E : PipelineExt) (task : ProverTask) (w : Nat)
    (sched : List SchedStep) (s : MachineState) (cr : CollectResult)
    (e : ProverError) (c : Bool)
    (hrun : ProvingPipeline.prove_fib_task_run E task w sched = .ok s)
    (hfin : s.finished = some cr)
    (hf : (joinedExpected E task).findSome? fatalOf = some (e, c)) :
    cr.result = .error e ∧ cr.cancelInvoked = c ∧ s.cancelled = c
      ∧ cr.reported = [] ∧ s.phases.all TaskPhase.isDone = true := by
  obtain ⟨hne, hs⟩ := prove_fib_task_run_ok E task w sched s hrun
  subst hs
  have hinv := machineInv_runFib E task w sched
  obtain ⟨hcr, hcanc⟩ := hinv.fin_val cr hfin
  have hpost := post_first_fatal E task _ e c hf
  rw [hpost] at hcr
  refine ⟨?_, ?_, ?_, ?_, hinv.fin_done (by simp [hfin])⟩
  · rw [hcr]
  · rw [hcr]
  · rw [hcanc, hcr]
  · rw [hcr]

/-- C1, witness: unit 0 fails verification (recoverable), unit 1
parses to a fatal error — the job result is the fatal error, the
signal is set, and the recoverable failure is discarded. -/
theorem fib_first_fatal_result_witness :
    (joinedExpected extC1 taskC1).findSome? fatalOf
        = some (.MalformedTask "bad input", true)
    ∧ (runFib extC1 taskC1 1 schedC1).finished
        = some ⟨.error (.MalformedTask "bad input"), true, []⟩
    ∧ ((⟨.error (.MalformedTask "bad input"), true, []⟩ : CollectResult).result
          = .error (.MalformedTask "bad input")
        ∧ (⟨.error (.MalformedTask "bad input"), true, []⟩ : CollectResult).cancelInvoked = true
        ∧ (runFib extC1 taskC1 1 schedC1).cancelled = true
        ∧ (⟨.error (.MalformedTask "bad input"), true, []⟩ : CollectResult).reported = []
        ∧ (runFib extC1 taskC1 1 schedC1).phases.all TaskPhase.isDone = true) :=
  ⟨by decide, by decide,
    fib_first_fatal_result extC1 taskC1 1 schedC1 (runFib extC1 taskC1 1 schedC1)
      ⟨.error (.MalformedTask "bad input"), true, []⟩ (.MalformedTask "bad input") true
      rfl (by decide) (by decide)⟩

/-- C1, counterexample: the claim states that upon observing the first
fatal failure — task-join failures included — the collector sets the
Cancellation Signal.  In this concrete job the only fatal failure is a
task-join failure: the collector returns it as the job result, but the
signal is never set (`cancellation_token.cancel()` is not called on
the join-error path, line 143 of `pipeline.rs`). -/
theorem fib_join_fatal_no_cancel_counterexample :
    (joinedExpected extC1j taskC1j).findSome? fatalOf
        = some (.JoinError .panicked, false)
    ∧ (runFib extC1j taskC1j 1 schedC1j).finished
        = some ⟨.error (.JoinError .panicked), false, []⟩
    ∧ (runFib extC1j taskC1j 1 schedC1j).cancelled = false := by
  refine ⟨by decide, by decide, by decide⟩

/-- C2: if the joined unit results contain no fatal failure and
`k ≥ 1` of them are recoverable failures (Stwo verification or
guest-computation failures; all other units succeeded), the job result
is the single aggregate error whose message counts exactly `k`
(`"{k} inputs failed verification"`), produced only after every
spawned task has completed, with no cancellation, and with exactly the
`k` failures handed to the fire-and-forget reporter. -/
theorem fib_recoverable_only_result (E : PipelineExt) (task : ProverTask) (w : Nat)
    (sched : List SchedStep) (s : MachineState) (cr : CollectResult)
    (hrun : ProvingPipeline.prove_fib_task_run E task w sched = .ok s)
    (hfin : s.finished = some cr)
    (hnf : (joinedExpected E task).findSome? fatalOf = none)
    (hk : 0 < recoverableCount (joinedExpected E task)) :
    cr.result = .error (.MalformedTask
        (toString (recoverableCount (joinedExpected E task)) ++ " inputs failed verification"))
    ∧ cr.cancelInvoked = false ∧ s.cancelled = false
    ∧ cr.reported.length = recoverableCount (joinedExpected E task)
    ∧ s.phases.all TaskPhase.isDone = true := by
  obtain ⟨hne, hs⟩ := prove_fib_task_run_ok E task w sched s hrun
  subst hs
  have hinv := machineInv_runFib E task w sched
  obtain ⟨hcr, hcanc⟩ := hinv.fin_val cr hfin
  obtain ⟨fs, hpost, hlen⟩ := post_no_fatal E task _ hnf hk
  rw [hpost] at hcr
  refine ⟨?_, ?_, ?_, ?_, hinv.fin_done (by simp [hfin])⟩
  · rw [hcr]
  · rw [hcr]
  · rw [hcanc, hcr]
  · rw [hcr]
    exact hlen

/-- C2, witness: one of two units fails verification, the other
succeeds — the job fails with `"1 inputs failed verification"`, no
cancellation, one reported failure, all tasks drained. -/
theorem fib_recoverable_only_result_witness :
    (joinedExpected extC2 taskC2).findSome? fatalOf = none
    ∧ 0 < recoverableCount (joinedExpected extC2 taskC2)
    ∧ (runFib extC2 taskC2 2 schedC2).finished
        = some ⟨.error (.MalformedTask "1 inputs failed verification"), false,
            [(0, .Stwo "proof verification failed")]⟩
    ∧ ((⟨.error (.MalformedTask "1 inputs failed verification"), false,
            [(0, .Stwo "proof verification failed")]⟩ : CollectResult).result
        = .error (.MalformedTask
            (toString (recoverableCount (joinedExpected extC2 taskC2))
              ++ " inputs failed verification"))) :=
  ⟨by decide, by decide, by decide,
    (fib_recoverable_only_result extC2 taskC2 2 schedC2 (runFib extC2 taskC2 2 schedC2)
      ⟨.error (.MalformedTask "1 inputs failed verification"), false,
        [(0, .Stwo "proof verification failed")]⟩
      rfl (by decide) (by decide) (by decide)).1⟩

/-- C3: for every nonempty job in which every unit succeeds (the
joined results are exactly the per-index successes `xs`), the job
result is `Ok` with the proofs, the combined hash, and the per-unit
fingerprint list, all in original input-index order: the list has one
entry per input, and the entry at position `i` is the fingerprint of
unit `i` (whose recorded index is `i`) — for every schedule, i.e. even
when tasks complete out of order. -/
theorem fib_all_success_result (E : PipelineExt) (task : ProverTask) (w : Nat)
    (sched : List SchedStep) (s : MachineState) (cr : CollectResult)
    (xs : List (Proof × String × Nat))
    (hrun : ProvingPipeline.prove_fib_task_run E task w sched = .ok s)
    (hfin : s.finished = some cr)
    (hxs : joinedExpected E task = xs.map (fun x => Except.ok (Except.ok x))) :
    cr.result = .ok (xs.map (fun x => x.1),
        ProvingPipeline.combine_proof_hashes E task (xs.map (fun x => x.2.1)),
        xs.map (fun x => x.2.1))
    ∧ (xs.map (fun x => x.2.1)).length = task.all_inputs.length
    ∧ cr.cancelInvoked = false ∧ s.cancelled = false ∧ cr.reported = []
    ∧ (∀ i x, xs.get? i = some x →
        E.panics i = false ∧ expectedResult E task i = .ok x ∧ x.2.2 = i) := by
  obtain ⟨hne, hs⟩ := prove_fib_task_run_ok E task w sched s hrun
  subst hs
  have hinv := machineInv_runFib E task w sched
  obtain ⟨hcr, hcanc⟩ := hinv.fin_val cr hfin
  rw [hxs] at hcr
  rw [post_all_ok E task xs] at hcr
  have hlenxs : xs.length = task.all_inputs.length := by
    have hjl : (joinedExpected E task).length = task.all_inputs.length := by
      unfold joinedExpected
      exact joinedExpectedFrom_length E task _ 0
    have := congrArg List.length hxs
    rw [hjl, List.length_map] at this
    exact this.symm
  refine ⟨by rw [hcr], by simp [List.length_map, hlenxs], by rw [hcr],
    by rw [hcanc, hcr], by rw [hcr], ?_⟩
  intro i x hx
  have hi : i < xs.length := by
    by_contra hge
    rw [List.get?_eq_none.mpr (by omega)] at hx
    cases hx
  have hmap : (joinedExpected E task).get? i = some (Except.ok (Except.ok x)) := by
    rw [hxs, List.get?_map, hx]
    rfl
  have hje : (joinedExpected E task).get? i
      = some (if E.panics i then .error .panicked
              else .ok (expectedResult E task i)) := by
    unfold joinedExpected
    have := joinedExpectedFrom_get? E task task.all_inputs.length i 0 (by omega)
    simpa using this
  rw [hje] at hmap
  cases hp : E.panics i with
  | true =>
    rw [hp] at hmap
    simp at hmap
  | false =>
    rw [hp] at hmap
    simp only [if_neg (by simp : ¬((false : Bool) = true)), Option.some.injEq] at hmap
    have hexp : expectedResult E task i = .ok x := by
      injection hmap with hm
    exact ⟨rfl, hexp, expectedResult_ok_index E task i x hexp⟩

/-- C3, witness: two successful units completed out of input order
(the schedule finishes unit 1 before unit 0); the fingerprint list is
nevertheless `["5", "9"]` in input order, with one entry per input. -/
theorem fib_all_success_result_witness :
    joinedExpected extC3 taskC3
        = [(5, "5", 0), (9, "9", 1)].map (fun x => Except.ok (Except.ok x))
    ∧ (runFib extC3 taskC3 2 schedC3).finished
        = some ⟨.ok ([5, 9], "59", ["5", "9"]), false, []⟩
    ∧ ((⟨.ok ([5, 9], "59", ["5", "9"]), false, []⟩ : CollectResult).result
        = .ok ([(5, "5", 0), (9, "9", 1)].map (fun x => x.1),
            ProvingPipeline.combine_proof_hashes extC3 taskC3
              ([(5, "5", 0), (9, "9", 1)].map (fun x => x.2.1)),
            [(5, "5", 0), (9, "9", 1)].map (fun x => x.2.1))
        ∧ ([((5 : Proof), "5", (0 : Nat)), (9, "9", 1)].map (fun x => x.2.1)).length
            = taskC3.all_inputs.length) :=
  ⟨by decide, by decide,
    (fib_all_success_result extC3 taskC3 2 schedC3 (runFib extC3 taskC3 2 schedC3)
      ⟨.ok ([5, 9], "59", ["5", "9"]), false, []⟩ [(5, "5", 0), (9, "9", 1)]
      rfl (by decide) (by decide)).1,
    (fib_all_success_result extC3 taskC3 2 schedC3 (runFib extC3 taskC3 2 schedC3)
      ⟨.ok ([5, 9], "59", ["5", "9"]), false, []⟩ [(5, "5", 0), (9, "9", 1)]
      rfl (by decide) (by decide)).2.1⟩

/-- C6 (amended): once the Cancellation Signal is set, the machine is
frozen — no unit changes state afterwards, so in particular no unit
transitions into success after the signal is set.  But this holds only
because the signal is set exclusively by the collector, which runs
strictly after every task has completed; units that have not started
when a sibling unit fails fatally are not cancelled — they invoke the
executor normally (the amendment the counterexample forces). -/
theorem fib_no_transition_after_cancel (E : PipelineExt) (task : ProverTask) (w : Nat)
    (sa sb : List SchedStep)
    (hc : (runFib E task w sa).cancelled = true) :
    runSched E task w (runFib E task w sa) sb = runFib E task w sa
    ∧ (runFib E task w sa).phases.all TaskPhase.isDone = true := by
  have hinv := machineInv_runFib E task w sa
  have hfinSome := hinv.canc_fin hc
  rcases hfin : (runFib E task w sa).finished with _ | cr
  · simp [hfin] at hfinSome
  · have hall := hinv.fin_done (by simp [hfin])
    exact ⟨runSched_frozen E task w sb _ hall cr hfin, hall⟩

/-- C6, witness: after the cancelling run, further scheduling steps
change nothing. -/
theorem fib_no_transition_after_cancel_witness :
    (runFib extC6 taskC6 2 schedC6).cancelled = true
    ∧ (runSched extC6 taskC6 2 (runFib extC6 taskC6 2 schedC6) [.task 3, .collect]
          = runFib extC6 taskC6 2 schedC6
        ∧ (runFib extC6 taskC6 2 schedC6).phases.all TaskPhase.isDone = true) :=
  ⟨by decide,
    fib_no_transition_after_cancel extC6 taskC6 2 schedC6 [.task 3, .collect] (by decide)⟩

/-- C6, counterexample: concurrency limit 2, five units, unit #3
(index 2) completes with a fatal error while units #4 and #5
(indices 3, 4) have not yet started — and the signal is still unset at
that point.  Those units do not resolve as `Cancelled`: they invoke
the executor and end in success, and only then does the collector set
the signal, after all tasks have completed. -/
theorem fib_cancellation_dead_counterexample :
    ((runFib extC6 taskC6 2 schedC6pre).phases.get? 2
        = some (.done (.error (.MalformedTask "bad input")))
      ∧ (runFib extC6 taskC6 2 schedC6pre).phases.get? 3 = some .notStarted
      ∧ (runFib extC6 taskC6 2 schedC6pre).phases.get? 4 = some .notStarted
      ∧ (runFib extC6 taskC6 2 schedC6pre).cancelled = false)
    ∧ ((runFib extC6 taskC6 2 schedC6).phases.get? 3 = some (.done (.ok (7, "7", 3)))
      ∧ (runFib extC6 taskC6 2 schedC6).phases.get? 4 = some (.done (.ok (7, "7", 4)))
      ∧ (runFib extC6 taskC6 2 schedC6).finished
          = some ⟨.error (.MalformedTask "bad input"), true, []⟩
      ∧ (runFib extC6 taskC6 2 schedC6).cancelled = true) := by
  refine ⟨⟨by decide, by decide, by decide, by decide⟩,
    ⟨by decide, by decide, by decide, by decide⟩⟩
